import Mathlib

/-!
Shallow embedding of the `Topk` component of the CircuitsVis repository
(`src/react/src/topk/Topk.tsx`) and proofs about it.

Activation values are modelled as rationals (`ℚ`); matrices as
`List (List ℚ)`.  JavaScript array indexing, which yields `undefined` out
of range, is modelled with `List.get?` / `List.getD`.  The tensor-library
primitives consumed by the component (`tf.topk`, `slice`, `squeeze`,
`transpose`, `reverse`, `mul(-1)`) are external collaborators assumed
correct; they are modelled here by their documented semantics:
`tf.topk(_, k, sorted=true)` returns, along the last axis, the `k`
largest entries sorted descending, with ties broken towards the lower
index.
-/

namespace CircuitsVis

/-- Order used to model `tf.topk`: larger values first, ties broken by
lower index first. -/
def pairOrder (a b : ℕ × ℚ) : Prop :=
  b.2 < a.2 ∨ (a.2 = b.2 ∧ a.1 ≤ b.1)

instance : DecidableRel pairOrder := fun a b => by
  unfold pairOrder; exact inferInstance

instance : IsTotal (ℕ × ℚ) pairOrder where
  total a b := by
    unfold pairOrder
    rcases lt_trichotomy a.2 b.2 with h | h | h
    · exact Or.inr (Or.inl h)
    · rcases Nat.le_total a.1 b.1 with h' | h'
      · exact Or.inl (Or.inr ⟨h, h'⟩)
      · exact Or.inr (Or.inr ⟨h.symm, h'⟩)
    · exact Or.inl (Or.inl h)

instance : IsTrans (ℕ × ℚ) pairOrder where
  trans a b c hab hbc := by
    unfold pairOrder at *
    rcases hab with h1 | ⟨h1, h1'⟩
    · rcases hbc with h2 | ⟨h2, _⟩
      · exact Or.inl (h2.trans h1)
      · exact Or.inl (h2 ▸ h1)
    · rcases hbc with h2 | ⟨h2, h2'⟩
      · exact Or.inl (h1 ▸ h2)
      · exact Or.inr ⟨h1.trans h2, h1'.trans h2'⟩

/-- Model of `tf.topk(xs, k, sorted=true)` on one row: the `k` largest
entries of `xs`, as (index, value) pairs, sorted by value descending
(ties: lower index first). -/
def rowTopk (xs : List ℚ) (k : ℕ) : List (ℕ × ℚ) :=
  (xs.enum.insertionSort pairOrder).take k

/-- `tf.topk` applied to every row of a matrix. -/
def topkRaw (A : List (List ℚ)) (k : ℕ) : List (List (ℕ × ℚ)) :=
  A.map (fun row => rowTopk row k)

/-- The `values` field of the `tf.topk` result (`topkValsRaw` in the code). -/
def topkValsRaw (A : List (List ℚ)) (k : ℕ) : List (List ℚ) :=
  (topkRaw A k).map (fun ps => ps.map Prod.snd)

/-- The `indices` field of the `tf.topk` result (`topkIdxsRaw` in the code). -/
def topkIdxsRaw (A : List (List ℚ)) (k : ℕ) : List (List ℕ) :=
  (topkRaw A k).map (fun ps => ps.map Prod.fst)

/-- `currentActivations.mul(-1)`: elementwise negation. -/
def negMat (A : List (List ℚ)) : List (List ℚ) :=
  A.map (fun row => row.map (fun v => -v))

/-- `bottomkValsRaw`: values of `tfTopk(currentActivations.mul(-1), k, true)`. -/
def bottomkValsRaw (A : List (List ℚ)) (k : ℕ) : List (List ℚ) :=
  topkValsRaw (negMat A) k

/-- `bottomkIdxsRaw`: indices of `tfTopk(currentActivations.mul(-1), k, true)`. -/
def bottomkIdxsRaw (A : List (List ℚ)) (k : ℕ) : List (List ℕ) :=
  topkIdxsRaw (negMat A) k

/-- Model of `tf.transpose` for a rectangular 2-D tensor held as a list of
rows: row `j` of the result is column `j` of the input.  The number of
columns is read off the first row, as the shape of a rectangular tensor
determines it. -/
def transpose2 (d : α) (m : List (List α)) : List (List α) :=
  (List.range (m.headD []).length).map (fun j => m.map (fun row => row.getD j d))

/-- `topkVals = topkValsRaw.transpose().arraySync()`. -/
def topkVals (A : List (List ℚ)) (k : ℕ) : List (List ℚ) :=
  transpose2 0 (topkValsRaw A k)

/-- `topkIdxs = topkIdxsRaw.transpose().arraySync()`. -/
def topkIdxs (A : List (List ℚ)) (k : ℕ) : List (List ℕ) :=
  transpose2 0 (topkIdxsRaw A k)

/-- `bottomkVals = reverse(bottomkValsRaw.mul(-1), -1).transpose().arraySync()`. -/
def bottomkVals (A : List (List ℚ)) (k : ℕ) : List (List ℚ) :=
  transpose2 0 ((bottomkValsRaw A k).map (fun row => (row.map (fun v => -v)).reverse))

/-- `bottomkIdxs = reverse(bottomkIdxsRaw, -1).transpose().arraySync()`. -/
def bottomkIdxs (A : List (List ℚ)) (k : ℕ) : List (List ℕ) :=
  transpose2 0 ((bottomkIdxsRaw A k).map List.reverse)

/-- JavaScript array read `currentTokens[token_idx]`: yields the token when
the index is in range and `undefined` (modelled as `none`) otherwise; no
bounds check, no exception. -/
def tokenLookup (toks : List String) (i : ℕ) : Option String :=
  toks.get? i

/-- `topkTokens = topkIdxs.map(outerArr => outerArr.map(idx => currentTokens[idx]))`. -/
def topkTokens (toks : List String) (A : List (List ℚ)) (k : ℕ) :
    List (List (Option String)) :=
  (topkIdxs A k).map (fun arr => arr.map (fun i => tokenLookup toks i))

/-- `bottomkTokens = bottomkIdxs.map(outerArr => outerArr.map(idx => currentTokens[idx]))`. -/
def bottomkTokens (toks : List String) (A : List (List ℚ)) (k : ℕ) :
    List (List (Option String)) :=
  (bottomkIdxs A k).map (fun arr => arr.map (fun i => tokenLookup toks i))

/-- `getSelectedActivations`: slice out one layer and a neuron range from a
`[tokens × layers × neurons]` tensor, squeeze the layer axis, and
transpose to `[neurons × tokens]`. -/
def getSelectedActivations (activations : List (List (List ℚ)))
    (layerNumber neuronStartNumber neuronEndNumber : ℕ) : List (List ℚ) :=
  transpose2 0 (activations.map (fun tokRow =>
    ((tokRow.getD layerNumber []).drop neuronStartNumber).take
      (neuronEndNumber - neuronStartNumber + 1)))

/-- Element of a list-of-lists at row `r`, column `n` (JS-style, with a
default for out-of-range reads). -/
def elemAt (m : List (List α)) (r n : ℕ) (d : α) : α :=
  (m.getD r []).getD n d

/-- Column `n` of a list-of-lists. -/
def colAt (m : List (List α)) (n : ℕ) (d : α) : List α :=
  m.map (fun row => row.getD n d)

/-- `NumberSelector`'s option list:
`[...Array(largestNumber - smallestNumber + 1).keys()].map(i => i + smallestNumber)`. -/
def numberSelectorOptions (smallestNumber largestNumber : ℤ) : List ℤ :=
  (List.range (largestNumber - smallestNumber + 1).toNat).map
    (fun i => Int.ofNat i + smallestNumber)

/-- The loop of `RangeSelector` building the option ranges, as
(start, end) pairs:
`for (i = smallest; i <= largest; i += numVals) push(i, min(i+numVals-1, largest))`.
The guard `1 ≤ numVals` makes the function total; with `numVals ≤ 0` the
JavaScript loop does not terminate. -/
def rangeSelectorRangesAux (largest numVals i : ℤ) : List (ℤ × ℤ) :=
  if _h : i ≤ largest ∧ 1 ≤ numVals then
    (i, min (i + numVals - 1) largest) ::
      rangeSelectorRangesAux largest numVals (i + numVals)
  else []
termination_by (largest + 1 - i).toNat
decreasing_by omega

/-- The list of ranges shown by `RangeSelector`. -/
def rangeSelectorRanges (smallest largest numVals : ℤ) : List (ℤ × ℤ) :=
  rangeSelectorRangesAux largest numVals smallest

/-- The `useEffect` body reacting to a `colsToShow` change:
`setNeuronNumbers(numberOfSamples > 1 ? [...Array(colsToShow).keys()] : [0])`. -/
def recomputedNeuronNumbers (numberOfSamples colsToShow : ℕ) : List ℕ :=
  if 1 < numberOfSamples then List.range colsToShow else [0]

/-- The whole derivation pipeline of the `Topk` component body: from the
inputs and the selection state to the six display matrices. -/
def deriveDisplay (tokens : List (List String))
    (activations : List (List (List (List ℚ))))
    (sampleNumber layerNumber : ℕ) (neuronNumbers : List ℕ) (k : ℕ) :
    List (List ℚ) × List (List ℕ) × List (List (Option String)) ×
      List (List ℚ) × List (List ℕ) × List (List (Option String)) :=
  let currentTokens := tokens.getD sampleNumber []
  let currentActivations := getSelectedActivations
    (activations.getD sampleNumber []) layerNumber
    (neuronNumbers.getD 0 0) (neuronNumbers.getD (neuronNumbers.length - 1) 0)
  (topkVals currentActivations k, topkIdxs currentActivations k,
    topkTokens currentTokens currentActivations k,
    bottomkVals currentActivations k, bottomkIdxs currentActivations k,
    bottomkTokens currentTokens currentActivations k)

/-! ### Infrastructure lemmas -/

lemma pairOrder_snd_ge {a b : ℕ × ℚ} (h : pairOrder a b) : b.2 ≤ a.2 := by
  rcases h with h | ⟨h, _⟩
  · exact le_of_lt h
  · exact le_of_eq h.symm

lemma map_snd_sortPairs (xs : List ℚ) :
    (xs.enum.insertionSort pairOrder).map Prod.snd = xs.insertionSort (· ≥ ·) := by
  apply List.eq_of_perm_of_sorted (r := (· ≥ ·))
  · have p1 : List.Perm ((xs.enum.insertionSort pairOrder).map Prod.snd)
        (xs.enum.map Prod.snd) :=
      (List.perm_insertionSort pairOrder xs.enum).map Prod.snd
    rw [List.enum_eq_enumFrom, List.enumFrom_map_snd 0 xs] at p1
    exact p1.trans (List.perm_insertionSort _ xs).symm
  · have hs := List.sorted_insertionSort pairOrder xs.enum
    unfold List.Sorted at hs ⊢
    rw [List.pairwise_map]
    exact hs.imp (fun h => pairOrder_snd_ge h)
  · exact List.sorted_insertionSort _ _

lemma rowTopk_map_snd (xs : List ℚ) (k : ℕ) :
    (rowTopk xs k).map Prod.snd = (xs.insertionSort (· ≥ ·)).take k := by
  unfold rowTopk
  rw [List.map_take, map_snd_sortPairs]

lemma rowTopk_mem (xs : List ℚ) (k : ℕ) {p : ℕ × ℚ} (hp : p ∈ rowTopk xs k) :
    p.1 < xs.length ∧ xs.getD p.1 0 = p.2 := by
  unfold rowTopk at hp
  have h1 : p ∈ xs.enum.insertionSort pairOrder := List.mem_of_mem_take hp
  have h2 : p ∈ xs.enum := (List.perm_insertionSort pairOrder xs.enum).mem_iff.mp h1
  rw [List.mem_enum_iff_getElem?] at h2
  obtain ⟨hlt, hv⟩ := List.getElem?_eq_some.mp h2
  refine ⟨hlt, ?_⟩
  rw [List.getD_eq_getElem?_getD, h2]
  rfl

lemma length_rowTopk (xs : List ℚ) (k : ℕ) :
    (rowTopk xs k).length = min k xs.length := by
  unfold rowTopk
  rw [List.length_take, (List.perm_insertionSort pairOrder xs.enum).length_eq,
    List.enum_length]

lemma sorted_ge_rowTopk_snd (xs : List ℚ) (k : ℕ) :
    ((rowTopk xs k).map Prod.snd).Sorted (· ≥ ·) := by
  rw [rowTopk_map_snd]
  exact (List.sorted_insertionSort _ xs).sublist (List.take_sublist _ _)

lemma length_transpose2 (d : α) (m : List (List α)) :
    (transpose2 d m).length = (m.headD []).length := by
  unfold transpose2
  rw [List.length_map, List.length_range]

lemma getD_transpose2_row (d : α) (m : List (List α)) (r : ℕ)
    (hr : r < (m.headD []).length) :
    (transpose2 d m).getD r [] = m.map (fun row => row.getD r d) := by
  unfold transpose2
  rw [List.getD_eq_getElem?_getD, List.getElem?_map, List.getElem?_range hr]
  rfl

lemma getD_map_getD (g : α → β) (m : List α) {n : ℕ} (hn : n < m.length)
    (dα : α) {dβ : β} :
    (m.map g).getD n dβ = g (m.getD n dα) := by
  rw [List.getD_eq_getElem?_getD, List.getD_eq_getElem?_getD, List.getElem?_map,
    List.getElem?_eq_getElem hn]
  rfl

lemma elemAt_transpose2 (d : α) (m : List (List α)) (r n : ℕ)
    (hr : r < (m.headD []).length) (hn : n < m.length) :
    elemAt (transpose2 d m) r n d = (m.getD n []).getD r d := by
  unfold elemAt
  rw [getD_transpose2_row d m r hr, getD_map_getD (fun row => row.getD r d) m hn []]

lemma range_map_getD (l : List α) (d : α) :
    (List.range l.length).map (fun j => l.getD j d) = l := by
  apply List.ext_getElem
  · rw [List.length_map, List.length_range]
  · intro i h1 h2
    rw [List.getElem_map, List.getElem_range, List.getD_eq_getElem?_getD,
      List.getElem?_eq_getElem h2]
    rfl

lemma colAt_transpose2 (d : α) (m : List (List α)) (n : ℕ)
    (hn : n < m.length) (hrow : (m.getD n []).length = (m.headD []).length) :
    colAt (transpose2 d m) n d = m.getD n [] := by
  unfold colAt transpose2
  rw [List.map_map]
  have he : ((fun row => row.getD n d) ∘ fun j => m.map fun row => row.getD j d)
      = fun j => (m.getD n []).getD j d := by
    funext j
    exact getD_map_getD _ m hn []
  rw [he, ← hrow, range_map_getD]

lemma topkValsRaw_getD (A : List (List ℚ)) (k : ℕ) {n : ℕ} (hn : n < A.length) :
    (topkValsRaw A k).getD n [] = (rowTopk (A.getD n []) k).map Prod.snd := by
  unfold topkValsRaw topkRaw
  rw [List.map_map]
  exact getD_map_getD _ A hn []

lemma topkIdxsRaw_getD (A : List (List ℚ)) (k : ℕ) {n : ℕ} (hn : n < A.length) :
    (topkIdxsRaw A k).getD n [] = (rowTopk (A.getD n []) k).map Prod.fst := by
  unfold topkIdxsRaw topkRaw
  rw [List.map_map]
  exact getD_map_getD _ A hn []

lemma length_negMat (A : List (List ℚ)) : (negMat A).length = A.length :=
  List.length_map A _

lemma negMat_getD (A : List (List ℚ)) {n : ℕ} (hn : n < A.length) :
    (negMat A).getD n [] = (A.getD n []).map (fun v => -v) := by
  unfold negMat
  exact getD_map_getD _ A hn []

lemma headD_eq_getD_zero (l : List α) (d : α) : l.headD d = l.getD 0 d := by
  cases l <;> rfl

lemma getD_mem {l : List α} {n : ℕ} (hn : n < l.length) (d : α) : l.getD n d ∈ l := by
  rw [List.getD_eq_getElem?_getD, List.getElem?_eq_getElem hn]
  exact List.getElem_mem hn

lemma length_topkValsRaw (A : List (List ℚ)) (k : ℕ) :
    (topkValsRaw A k).length = A.length := by
  unfold topkValsRaw topkRaw
  rw [List.length_map, List.length_map]

lemma length_topkIdxsRaw (A : List (List ℚ)) (k : ℕ) :
    (topkIdxsRaw A k).length = A.length := by
  unfold topkIdxsRaw topkRaw
  rw [List.length_map, List.length_map]

lemma row_length_topkValsRaw {A : List (List ℚ)} {T : ℕ} (k : ℕ)
    (hrect : ∀ row ∈ A, row.length = T) {n : ℕ} (hn : n < A.length) :
    ((topkValsRaw A k).getD n []).length = min k T := by
  rw [topkValsRaw_getD A k hn, List.length_map, length_rowTopk,
    hrect _ (getD_mem hn [])]

lemma row_length_topkIdxsRaw {A : List (List ℚ)} {T : ℕ} (k : ℕ)
    (hrect : ∀ row ∈ A, row.length = T) {n : ℕ} (hn : n < A.length) :
    ((topkIdxsRaw A k).getD n []).length = min k T := by
  rw [topkIdxsRaw_getD A k hn, List.length_map, length_rowTopk,
    hrect _ (getD_mem hn [])]

lemma head_length_topkValsRaw {A : List (List ℚ)} {T : ℕ} (k : ℕ)
    (hrect : ∀ row ∈ A, row.length = T) (hA : 0 < A.length) :
    ((topkValsRaw A k).headD []).length = min k T := by
  rw [headD_eq_getD_zero]
  exact row_length_topkValsRaw k hrect hA

lemma head_length_topkIdxsRaw {A : List (List ℚ)} {T : ℕ} (k : ℕ)
    (hrect : ∀ row ∈ A, row.length = T) (hA : 0 < A.length) :
    ((topkIdxsRaw A k).headD []).length = min k T := by
  rw [headD_eq_getD_zero]
  exact row_length_topkIdxsRaw k hrect hA

/-! ### C1: top-k columns are the k largest values, sorted descending -/

/-- C1: for a rectangular `[neurons × tokens]` activation matrix `A` (every
row of length `T`) and `1 ≤ k ≤ T`, the top-k display column of neuron
`n` is exactly the `k` largest values of row `A[n]` sorted in descending
order (hence non-increasing in the rank), and at every rank `r < k` the
paired token index points back into the row at a position holding exactly
the displayed value. -/
theorem topk_column_correct (A : List (List ℚ)) (T k n : ℕ)
    (hrect : ∀ row ∈ A, row.length = T) (_hk1 : 1 ≤ k) (hkT : k ≤ T)
    (hn : n < A.length) :
    colAt (topkVals A k) n 0 = ((A.getD n []).insertionSort (· ≥ ·)).take k
    ∧ (colAt (topkVals A k) n 0).Sorted (· ≥ ·)
    ∧ ∀ r, r < k →
        elemAt (topkIdxs A k) r n 0 < T ∧
        (A.getD n []).getD (elemAt (topkIdxs A k) r n 0) 0
          = elemAt (topkVals A k) r n 0 := by
  have hminV : ((topkValsRaw A k).headD []).length = k := by
    rw [head_length_topkValsRaw k hrect (Nat.lt_of_le_of_lt (Nat.zero_le n) hn)]
    exact Nat.min_eq_left hkT
  have hminI : ((topkIdxsRaw A k).headD []).length = k := by
    rw [head_length_topkIdxsRaw k hrect (Nat.lt_of_le_of_lt (Nat.zero_le n) hn)]
    exact Nat.min_eq_left hkT
  have hcol : colAt (topkVals A k) n 0 = (rowTopk (A.getD n []) k).map Prod.snd := by
    unfold topkVals
    rw [colAt_transpose2 0 _ n (by rw [length_topkValsRaw]; exact hn)
      (by rw [row_length_topkValsRaw k hrect hn, hminV]; exact Nat.min_eq_left hkT),
      topkValsRaw_getD A k hn]
  refine ⟨?_, ?_, ?_⟩
  · rw [hcol, rowTopk_map_snd]
  · rw [hcol]
    exact sorted_ge_rowTopk_snd _ _
  · intro r hr
    have hlenRT : (rowTopk (A.getD n []) k).length = k := by
      rw [length_rowTopk, hrect _ (getD_mem hn [])]
      exact Nat.min_eq_left hkT
    have hIdx : elemAt (topkIdxs A k) r n 0
        = ((rowTopk (A.getD n []) k).getD r (0, 0)).1 := by
      unfold topkIdxs
      rw [elemAt_transpose2 0 _ r n (by rw [hminI]; exact hr)
          (by rw [length_topkIdxsRaw]; exact hn),
        topkIdxsRaw_getD A k hn,
        getD_map_getD Prod.fst _ (by rw [hlenRT]; exact hr) (0, 0)]
    have hVal : elemAt (topkVals A k) r n 0
        = ((rowTopk (A.getD n []) k).getD r (0, 0)).2 := by
      unfold topkVals
      rw [elemAt_transpose2 0 _ r n (by rw [hminV]; exact hr)
          (by rw [length_topkValsRaw]; exact hn),
        topkValsRaw_getD A k hn,
        getD_map_getD Prod.snd _ (by rw [hlenRT]; exact hr) (0, 0)]
    have hp : (rowTopk (A.getD n []) k).getD r (0, 0) ∈ rowTopk (A.getD n []) k :=
      getD_mem (by rw [hlenRT]; exact hr) (0, 0)
    obtain ⟨h1, h2⟩ := rowTopk_mem (A.getD n []) k hp
    rw [hrect _ (getD_mem hn [])] at h1
    exact ⟨by rw [hIdx]; exact h1, by rw [hIdx, hVal]; exact h2⟩

/-- Witness for C1 at `A = [[1, 3, 2], [5, 4, 6]]`, `T = 3`, `k = 2`,
`n = 0`. -/
theorem topk_column_correct_witness :
    colAt (topkVals [[1, 3, 2], [5, 4, 6]] 2) 0 0
        = (([[(1 : ℚ), 3, 2], [5, 4, 6]].getD 0 []).insertionSort (· ≥ ·)).take 2
    ∧ (colAt (topkVals [[1, 3, 2], [5, 4, 6]] 2) 0 0).Sorted (· ≥ ·)
    ∧ ∀ r, r < 2 →
        elemAt (topkIdxs [[1, 3, 2], [5, 4, 6]] 2) r 0 0 < 3 ∧
        ([[(1 : ℚ), 3, 2], [5, 4, 6]].getD 0 []).getD
            (elemAt (topkIdxs [[1, 3, 2], [5, 4, 6]] 2) r 0 0) 0
          = elemAt (topkVals [[1, 3, 2], [5, 4, 6]] 2) r 0 0 :=
  topk_column_correct [[1, 3, 2], [5, 4, 6]] 3 2 0 (by decide) (by decide)
    (by decide) (by decide)

/-! ### C2: bottom-k columns are the k smallest values, displayed descending -/

lemma map_neg_insertionSort_ge (xs : List ℚ) :
    ((xs.map (fun v => -v)).insertionSort (· ≥ ·)).map (fun v => -v)
      = xs.insertionSort (· ≤ ·) := by
  apply List.eq_of_perm_of_sorted (r := (· ≤ ·))
  · have p1 : List.Perm (((xs.map (fun v => -v)).insertionSort (· ≥ ·)).map (fun v => -v))
        ((xs.map (fun v => -v)).map (fun v => -v)) :=
      (List.perm_insertionSort _ _).map _
    have he : (xs.map (fun v => -v)).map (fun v => -(v : ℚ)) = xs := by
      rw [List.map_map]
      simp [Function.comp]
    rw [he] at p1
    exact p1.trans (List.perm_insertionSort _ xs).symm
  · have hs := List.sorted_insertionSort (· ≥ ·) (xs.map (fun v => -v))
    unfold List.Sorted at hs ⊢
    rw [List.pairwise_map]
    exact hs.imp (fun h => by exact neg_le_neg h)
  · exact List.sorted_insertionSort _ _

lemma bottomk_row_vals (xs : List ℚ) (k : ℕ) :
    ((rowTopk (xs.map (fun v => -v)) k).map Prod.snd).map (fun v => -v)
      = (xs.insertionSort (· ≤ ·)).take k := by
  rw [rowTopk_map_snd, List.map_take, map_neg_insertionSort_ge]

lemma negMat_rect {A : List (List ℚ)} {T : ℕ}
    (hrect : ∀ row ∈ A, row.length = T) :
    ∀ row ∈ negMat A, row.length = T := by
  intro row hrow
  obtain ⟨r, hr, rfl⟩ := List.mem_map.mp hrow
  rw [List.length_map]
  exact hrect r hr

/-- C2: for a rectangular `[neurons × tokens]` matrix `A` and `1 ≤ k ≤ T`,
the bottom-k display column of neuron `n` is exactly the `k` smallest
values of `A[n]`, displayed in non-increasing order (most-negative last);
the displayed column is the reversed, re-negated row of
`tf.topk(-A).values`, and the raw (pre-reverse, pre-negation-undo) row is
non-decreasing in the original values. -/
theorem bottomk_column_correct (A : List (List ℚ)) (T k n : ℕ)
    (hrect : ∀ row ∈ A, row.length = T) (_hk1 : 1 ≤ k) (hkT : k ≤ T)
    (hn : n < A.length) :
    colAt (bottomkVals A k) n 0 = (((A.getD n []).insertionSort (· ≤ ·)).take k).reverse
    ∧ (colAt (bottomkVals A k) n 0).Sorted (· ≥ ·)
    ∧ colAt (bottomkVals A k) n 0
        = (((bottomkValsRaw A k).getD n []).map (fun v => -v)).reverse
    ∧ (((bottomkValsRaw A k).getD n []).map (fun v => -v)).Sorted (· ≤ ·) := by
  have hnN : n < (negMat A).length := by rw [length_negMat]; exact hn
  have hrectN := negMat_rect hrect
  have hrowlen : ((bottomkValsRaw A k).getD n []).length = k := by
    unfold bottomkValsRaw
    rw [row_length_topkValsRaw k hrectN hnN]
    exact Nat.min_eq_left hkT
  have hRawRow : ((bottomkValsRaw A k).getD n []).map (fun v => -v)
      = ((A.getD n []).insertionSort (· ≤ ·)).take k := by
    unfold bottomkValsRaw
    rw [topkValsRaw_getD _ k hnN, negMat_getD A hn, bottomk_row_vals]
  have hlenB : (bottomkValsRaw A k).length = A.length := by
    unfold bottomkValsRaw
    rw [length_topkValsRaw, length_negMat]
  have hM : ∀ m, m < A.length →
      (((bottomkValsRaw A k).map (fun row => (row.map (fun v => -v)).reverse)).getD m [])
        = (((bottomkValsRaw A k).getD m []).map (fun v => -v)).reverse := by
    intro m hm
    exact getD_map_getD _ _ (by rw [hlenB]; exact hm) []
  have hMrow : ∀ m, m < A.length →
      (((bottomkValsRaw A k).map (fun row => (row.map (fun v => -v)).reverse)).getD m []).length
        = k := by
    intro m hm
    rw [hM m hm, List.length_reverse, List.length_map]
    unfold bottomkValsRaw
    rw [row_length_topkValsRaw k hrectN (by rw [length_negMat]; exact hm)]
    exact Nat.min_eq_left hkT
  have hcol : colAt (bottomkVals A k) n 0
      = (((bottomkValsRaw A k).getD n []).map (fun v => -v)).reverse := by
    unfold bottomkVals
    rw [colAt_transpose2 0 _ n (by rw [List.length_map, hlenB]; exact hn)
      (by
        rw [hMrow n hn, headD_eq_getD_zero,
          hMrow 0 (Nat.lt_of_le_of_lt (Nat.zero_le n) hn)]),
      hM n hn]
  refine ⟨?_, ?_, hcol, ?_⟩
  · rw [hcol, hRawRow]
  · rw [hcol]
    unfold List.Sorted
    rw [List.pairwise_reverse]
    have hs : (((bottomkValsRaw A k).getD n []).map (fun v => -v)).Sorted (· ≤ ·) := by
      rw [hRawRow]
      exact (List.sorted_insertionSort _ _).sublist (List.take_sublist _ _)
    exact hs.imp (fun h => h)
  · rw [hRawRow]
    exact (List.sorted_insertionSort _ _).sublist (List.take_sublist _ _)

/-- Witness for C2 at `A = [[1, 3, 2], [5, 4, 6]]`, `T = 3`, `k = 2`,
`n = 0`. -/
theorem bottomk_column_correct_witness :
    colAt (bottomkVals [[1, 3, 2], [5, 4, 6]] 2) 0 0
        = ((([[(1 : ℚ), 3, 2], [5, 4, 6]].getD 0 []).insertionSort (· ≤ ·)).take 2).reverse
    ∧ (colAt (bottomkVals [[1, 3, 2], [5, 4, 6]] 2) 0 0).Sorted (· ≥ ·)
    ∧ colAt (bottomkVals [[1, 3, 2], [5, 4, 6]] 2) 0 0
        = (((bottomkValsRaw [[1, 3, 2], [5, 4, 6]] 2).getD 0 []).map (fun v => -v)).reverse
    ∧ (((bottomkValsRaw [[1, 3, 2], [5, 4, 6]] 2).getD 0 []).map (fun v => -v)).Sorted (· ≤ ·) :=
  bottomk_column_correct [[1, 3, 2], [5, 4, 6]] 3 2 0 (by decide) (by decide)
    (by decide) (by decide)

/-! ### C3: shape and entries of the selected-activation slice -/

lemma getD_take_drop (l : List α) (s c n : ℕ) (hn : n < c) (d : α) :
    (((l.drop s).take c).getD n d) = l.getD (s + n) d := by
  rw [List.getD_eq_getElem?_getD, List.getD_eq_getElem?_getD,
    List.getElem?_take_of_lt hn, List.getElem?_drop]

/-- C3: for a rectangular `[tokens × layers × neurons]` per-sample tensor
with `T` tokens (`T > 0`), `L` layers and `N` neurons, a valid layer `l`
and a valid inclusive neuron range `[s, e]`, the selected-activation
slice has shape `[(e - s + 1) × T]` and its entry at `[n][t]` equals
`activations[t][l][s + n]`. -/
theorem getSelectedActivations_spec (acts : List (List (List ℚ)))
    (T L N l s e : ℕ) (hT : acts.length = T) (hT0 : 0 < T)
    (hrect : ∀ tok ∈ acts, tok.length = L ∧ ∀ lay ∈ tok, lay.length = N)
    (hl : l < L) (hse : s ≤ e) (he : e < N) :
    (getSelectedActivations acts l s e).length = e - s + 1
    ∧ (∀ row ∈ getSelectedActivations acts l s e, row.length = T)
    ∧ ∀ n t, n < e - s + 1 → t < T →
        elemAt (getSelectedActivations acts l s e) n t 0
          = ((acts.getD t []).getD l []).getD (s + n) 0 := by
  have hlenacts : 0 < acts.length := by rw [hT]; exact hT0
  have hrowf : ∀ m, m < acts.length →
      ((acts.map (fun tokRow =>
          ((tokRow.getD l []).drop s).take (e - s + 1))).getD m [])
        = (((acts.getD m []).getD l []).drop s).take (e - s + 1) := by
    intro m hm
    exact getD_map_getD _ _ hm []
  have hlayer : ∀ m, m < acts.length → ((acts.getD m []).getD l []).length = N := by
    intro m hm
    obtain ⟨htokL, hlayN⟩ := hrect _ (getD_mem hm [])
    exact hlayN _ (getD_mem (by rw [htokL]; exact hl) [])
  have hrowlen : ∀ m, m < acts.length →
      ((acts.map (fun tokRow =>
          ((tokRow.getD l []).drop s).take (e - s + 1))).getD m []).length
        = e - s + 1 := by
    intro m hm
    rw [hrowf m hm, List.length_take, List.length_drop, hlayer m hm]
    omega
  have hhead : ((acts.map (fun tokRow =>
      ((tokRow.getD l []).drop s).take (e - s + 1))).headD []).length
        = e - s + 1 := by
    rw [headD_eq_getD_zero]
    exact hrowlen 0 hlenacts
  refine ⟨?_, ?_, ?_⟩
  · unfold getSelectedActivations
    rw [length_transpose2, hhead]
  · intro row hrow
    unfold getSelectedActivations transpose2 at hrow
    obtain ⟨j, _, rfl⟩ := List.mem_map.mp hrow
    rw [List.length_map, List.length_map, hT]
  · intro n t hne ht
    unfold getSelectedActivations
    rw [elemAt_transpose2 0 _ n t (by rw [hhead]; exact hne)
        (by rw [List.length_map, hT]; exact ht),
      hrowf t (by rw [hT]; exact ht),
      getD_take_drop _ s _ n hne 0]

/-- Witness for C3 at a `2 × 2 × 3` tensor, layer `1`, neuron range
`[0, 2]`. -/
theorem getSelectedActivations_spec_witness :
    (getSelectedActivations [[[1, 2, 3], [4, 5, 6]], [[7, 8, 9], [10, 11, 12]]] 1 0 2).length
        = 2 - 0 + 1
    ∧ (∀ row ∈ getSelectedActivations [[[1, 2, 3], [4, 5, 6]], [[7, 8, 9], [10, 11, 12]]] 1 0 2,
        row.length = 2)
    ∧ ∀ n t, n < 2 - 0 + 1 → t < 2 →
        elemAt (getSelectedActivations [[[1, 2, 3], [4, 5, 6]], [[7, 8, 9], [10, 11, 12]]] 1 0 2)
            n t 0
          = (([[[(1 : ℚ), 2, 3], [4, 5, 6]], [[7, 8, 9], [10, 11, 12]]].getD t []).getD 1 []).getD
              (0 + n) 0 :=
  getSelectedActivations_spec [[[1, 2, 3], [4, 5, 6]], [[7, 8, 9], [10, 11, 12]]]
    2 2 3 1 0 2 (by decide) (by decide) (by decide) (by decide) (by decide) (by decide)

/-! ### C4: displayed top-k tokens come from the selected indices -/

lemma elemAt_map_inner (g : α → β) (M : List (List α)) {r n : ℕ}
    (hr : r < M.length) (hn : n < (M.getD r []).length) (dα : α) {dβ : β} :
    elemAt (M.map (fun row => row.map g)) r n dβ = g (elemAt M r n dα) := by
  unfold elemAt
  rw [getD_map_getD (fun row => row.map g) M hr [], getD_map_getD g _ hn dα]

lemma elemAt_topkIdxs_pair {A : List (List ℚ)} {T : ℕ} (k : ℕ)
    (hrect : ∀ row ∈ A, row.length = T) (hkT : k ≤ T) {r n : ℕ}
    (hr : r < k) (hn : n < A.length) :
    elemAt (topkIdxs A k) r n 0 = ((rowTopk (A.getD n []) k).getD r (0, 0)).1 := by
  have hA0 : 0 < A.length := Nat.lt_of_le_of_lt (Nat.zero_le n) hn
  have hlenRT : (rowTopk (A.getD n []) k).length = k := by
    rw [length_rowTopk, hrect _ (getD_mem hn [])]
    exact Nat.min_eq_left hkT
  unfold topkIdxs
  rw [elemAt_transpose2 0 _ r n
      (by rw [head_length_topkIdxsRaw k hrect hA0]; omega)
      (by rw [length_topkIdxsRaw]; exact hn),
    topkIdxsRaw_getD A k hn,
    getD_map_getD Prod.fst _ (by rw [hlenRT]; exact hr) (0, 0)]

lemma elemAt_topkIdxs_lt {A : List (List ℚ)} {T : ℕ} (k : ℕ)
    (hrect : ∀ row ∈ A, row.length = T) (hkT : k ≤ T) {r n : ℕ}
    (hr : r < k) (hn : n < A.length) :
    elemAt (topkIdxs A k) r n 0 < T := by
  have hlenRT : (rowTopk (A.getD n []) k).length = k := by
    rw [length_rowTopk, hrect _ (getD_mem hn [])]
    exact Nat.min_eq_left hkT
  have hp := getD_mem (l := rowTopk (A.getD n []) k)
    (n := r) (by rw [hlenRT]; exact hr) ((0 : ℕ), (0 : ℚ))
  obtain ⟨h1, _⟩ := rowTopk_mem _ k hp
  rw [hrect _ (getD_mem hn [])] at h1
  rw [elemAt_topkIdxs_pair k hrect hkT hr hn]
  exact h1

/-- C4: for every rank `r < k` and neuron column `n`, the displayed top-k
token equals the current sample's token at the selected index:
`topkTokens[r][n] = tokens[sample][topkIdxs[r][n]]`, and that index is in
range of the token list. -/
theorem topkTokens_correct (toks : List String) (A : List (List ℚ)) (T k r n : ℕ)
    (hrect : ∀ row ∈ A, row.length = T) (htoks : toks.length = T)
    (_hk1 : 1 ≤ k) (hkT : k ≤ T) (hr : r < k) (hn : n < A.length) :
    elemAt (topkTokens toks A k) r n none
        = tokenLookup toks (elemAt (topkIdxs A k) r n 0)
    ∧ elemAt (topkIdxs A k) r n 0 < toks.length
    ∧ elemAt (topkTokens toks A k) r n none
        = some (toks.getD (elemAt (topkIdxs A k) r n 0) "") := by
  have hA0 : 0 < A.length := Nat.lt_of_le_of_lt (Nat.zero_le n) hn
  have hMlen : (topkIdxs A k).length = k := by
    unfold topkIdxs
    rw [length_transpose2, head_length_topkIdxsRaw k hrect hA0]
    exact Nat.min_eq_left hkT
  have hMrow : ((topkIdxs A k).getD r []).length = A.length := by
    unfold topkIdxs
    rw [getD_transpose2_row 0 _ r
        (by rw [head_length_topkIdxsRaw k hrect hA0]; omega),
      List.length_map, length_topkIdxsRaw]
  have h1 : elemAt (topkTokens toks A k) r n none
      = tokenLookup toks (elemAt (topkIdxs A k) r n 0) := by
    unfold topkTokens
    exact elemAt_map_inner _ _ (by rw [hMlen]; exact hr)
      (by rw [hMrow]; exact hn) 0
  have hlt : elemAt (topkIdxs A k) r n 0 < toks.length := by
    rw [htoks]
    exact elemAt_topkIdxs_lt k hrect hkT hr hn
  refine ⟨h1, hlt, ?_⟩
  rw [h1]
  unfold tokenLookup
  rw [List.get?_eq_getElem?, List.getElem?_eq_getElem hlt,
    List.getD_eq_getElem?_getD, List.getElem?_eq_getElem hlt]
  rfl

/-- Witness for C4 at `toks = ["a", "b", "c"]`, `A = [[1, 3, 2], [5, 4, 6]]`,
`k = 2`, `r = 0`, `n = 0`. -/
theorem topkTokens_correct_witness :
    elemAt (topkTokens ["a", "b", "c"] [[1, 3, 2], [5, 4, 6]] 2) 0 0 none
        = tokenLookup ["a", "b", "c"]
            (elemAt (topkIdxs [[1, 3, 2], [5, 4, 6]] 2) 0 0 0)
    ∧ elemAt (topkIdxs [[1, 3, 2], [5, 4, 6]] 2) 0 0 0 < (["a", "b", "c"] : List String).length
    ∧ elemAt (topkTokens ["a", "b", "c"] [[1, 3, 2], [5, 4, 6]] 2) 0 0 none
        = some ((["a", "b", "c"] : List String).getD
            (elemAt (topkIdxs [[1, 3, 2], [5, 4, 6]] 2) 0 0 0) "") :=
  topkTokens_correct ["a", "b", "c"] [[1, 3, 2], [5, 4, 6]] 3 2 0 0
    (by decide) (by decide) (by decide) (by decide) (by decide) (by decide)

/-! ### C9: bottom-k values, indices and tokens stay aligned -/

lemma getD_reverse {l : List α} {r : ℕ} (hr : r < l.length) (d : α) :
    l.reverse.getD r d = l.getD (l.length - 1 - r) d := by
  rw [List.getD_eq_getElem?_getD, List.getD_eq_getElem?_getD,
    List.getElem?_reverse hr]

/-- C9: the reversal in the bottom-k post-processing is applied identically
to values and indices, so for every rank `r < k` and neuron `n` the
displayed triple is aligned: the index is a valid token position,
`bottomkVals[r][n] = currentActivations[n][bottomkIdxs[r][n]]`, and
`bottomkTokens[r][n] = tokens[sample][bottomkIdxs[r][n]]`. -/
theorem bottomk_aligned (toks : List String) (A : List (List ℚ)) (T k r n : ℕ)
    (hrect : ∀ row ∈ A, row.length = T) (htoks : toks.length = T)
    (_hk1 : 1 ≤ k) (hkT : k ≤ T) (hr : r < k) (hn : n < A.length) :
    elemAt (bottomkIdxs A k) r n 0 < T
    ∧ elemAt (bottomkVals A k) r n 0
        = (A.getD n []).getD (elemAt (bottomkIdxs A k) r n 0) 0
    ∧ elemAt (bottomkTokens toks A k) r n none
        = tokenLookup toks (elemAt (bottomkIdxs A k) r n 0)
    ∧ elemAt (bottomkTokens toks A k) r n none
        = some (toks.getD (elemAt (bottomkIdxs A k) r n 0) "") := by
  have hnN : n < (negMat A).length := by rw [length_negMat]; exact hn
  have hrectN := negMat_rect hrect
  have hA0 : 0 < A.length := Nat.lt_of_le_of_lt (Nat.zero_le n) hn
  have hrowA : (A.getD n []).length = T := hrect _ (getD_mem hn [])
  have hps : (rowTopk ((A.getD n []).map (fun v => -v)) k).length = k := by
    rw [length_rowTopk, List.length_map, hrowA]
    exact Nat.min_eq_left hkT
  have hlenIRaw : (bottomkIdxsRaw A k).length = A.length := by
    unfold bottomkIdxsRaw
    rw [length_topkIdxsRaw, length_negMat]
  have hrowIRaw : ∀ m, m < A.length → ((bottomkIdxsRaw A k).getD m []).length = k := by
    intro m hm
    unfold bottomkIdxsRaw
    rw [row_length_topkIdxsRaw k hrectN (by rw [length_negMat]; exact hm)]
    exact Nat.min_eq_left hkT
  have hIRawn : (bottomkIdxsRaw A k).getD n []
      = (rowTopk ((A.getD n []).map (fun v => -v)) k).map Prod.fst := by
    unfold bottomkIdxsRaw
    rw [topkIdxsRaw_getD _ k hnN, negMat_getD A hn]
  have hMI : ∀ m, m < A.length →
      (((bottomkIdxsRaw A k).map List.reverse).getD m [])
        = ((bottomkIdxsRaw A k).getD m []).reverse := by
    intro m hm
    exact getD_map_getD _ _ (by rw [hlenIRaw]; exact hm) []
  have hMIrow : ∀ m, m < A.length →
      (((bottomkIdxsRaw A k).map List.reverse).getD m []).length = k := by
    intro m hm
    rw [hMI m hm, List.length_reverse]
    exact hrowIRaw m hm
  have hMIhead : (((bottomkIdxsRaw A k).map List.reverse).headD []).length = k := by
    rw [headD_eq_getD_zero]
    exact hMIrow 0 hA0
  have hIdx : elemAt (bottomkIdxs A k) r n 0
      = ((rowTopk ((A.getD n []).map (fun v => -v)) k).getD (k - 1 - r) (0, 0)).1 := by
    unfold bottomkIdxs
    rw [elemAt_transpose2 0 _ r n (by rw [hMIhead]; exact hr)
        (by rw [List.length_map, hlenIRaw]; exact hn),
      hMI n hn, hIRawn,
      getD_reverse (by rw [List.length_map, hps]; exact hr) 0,
      List.length_map, hps,
      getD_map_getD Prod.fst _ (by rw [hps]; omega) (0, 0)]
  have hlenVRaw : (bottomkValsRaw A k).length = A.length := by
    unfold bottomkValsRaw
    rw [length_topkValsRaw, length_negMat]
  have hrowVRaw : ∀ m, m < A.length → ((bottomkValsRaw A k).getD m []).length = k := by
    intro m hm
    unfold bottomkValsRaw
    rw [row_length_topkValsRaw k hrectN (by rw [length_negMat]; exact hm)]
    exact Nat.min_eq_left hkT
  have hVRawn : (bottomkValsRaw A k).getD n []
      = (rowTopk ((A.getD n []).map (fun v => -v)) k).map Prod.snd := by
    unfold bottomkValsRaw
    rw [topkValsRaw_getD _ k hnN, negMat_getD A hn]
  have hMV : ∀ m, m < A.length →
      (((bottomkValsRaw A k).map (fun row => (row.map (fun v => -v)).reverse)).getD m [])
        = (((bottomkValsRaw A k).getD m []).map (fun v => -v)).reverse := by
    intro m hm
    exact getD_map_getD _ _ (by rw [hlenVRaw]; exact hm) []
  have hMVrow : ∀ m, m < A.length →
      (((bottomkValsRaw A k).map (fun row => (row.map (fun v => -v)).reverse)).getD m []).length
        = k := by
    intro m hm
    rw [hMV m hm, List.length_reverse, List.length_map]
    exact hrowVRaw m hm
  have hMVhead : (((bottomkValsRaw A k).map
      (fun row => (row.map (fun v => -v)).reverse)).headD []).length = k := by
    rw [headD_eq_getD_zero]
    exact hMVrow 0 hA0
  have hVal : elemAt (bottomkVals A k) r n 0
      = -((rowTopk ((A.getD n []).map (fun v => -v)) k).getD (k - 1 - r) (0, 0)).2 := by
    unfold bottomkVals
    rw [elemAt_transpose2 0 _ r n (by rw [hMVhead]; exact hr)
        (by rw [List.length_map, hlenVRaw]; exact hn),
      hMV n hn, hVRawn,
      getD_reverse (by rw [List.length_map, List.length_map, hps]; exact hr) 0,
      List.length_map, List.length_map, hps,
      getD_map_getD (fun v => -(v : ℚ)) _ (by rw [List.length_map, hps]; omega) 0,
      getD_map_getD Prod.snd _ (by rw [hps]; omega) (0, 0)]
  have hq := getD_mem (l := rowTopk ((A.getD n []).map (fun v => -v)) k)
    (n := k - 1 - r) (by rw [hps]; omega) ((0 : ℕ), (0 : ℚ))
  obtain ⟨hq1, hq2⟩ := rowTopk_mem _ k hq
  rw [List.length_map, hrowA] at hq1
  have hq2' : ((A.getD n []).map (fun v => -v)).getD
      ((rowTopk ((A.getD n []).map (fun v => -v)) k).getD (k - 1 - r) (0, 0)).1 0
      = -((A.getD n []).getD
          ((rowTopk ((A.getD n []).map (fun v => -v)) k).getD (k - 1 - r) (0, 0)).1 0) := by
    exact getD_map_getD (fun v => -(v : ℚ)) _ (by rw [hrowA]; exact hq1) 0
  have hlt : elemAt (bottomkIdxs A k) r n 0 < T := by
    rw [hIdx]
    exact hq1
  have hBIlen : (bottomkIdxs A k).length = k := by
    unfold bottomkIdxs
    rw [length_transpose2, hMIhead]
  have hBIrow : ((bottomkIdxs A k).getD r []).length = A.length := by
    unfold bottomkIdxs
    rw [getD_transpose2_row 0 _ r (by rw [hMIhead]; exact hr),
      List.length_map, List.length_map, hlenIRaw]
  have htok : elemAt (bottomkTokens toks A k) r n none
      = tokenLookup toks (elemAt (bottomkIdxs A k) r n 0) := by
    unfold bottomkTokens
    exact elemAt_map_inner _ _ (by rw [hBIlen]; exact hr)
      (by rw [hBIrow]; exact hn) 0
  have hltT : elemAt (bottomkIdxs A k) r n 0 < toks.length := by
    rw [htoks]
    exact hlt
  refine ⟨hlt, ?_, htok, ?_⟩
  · rw [hVal, hIdx]
    rw [hq2'] at hq2
    have := neg_eq_iff_eq_neg.mp hq2
    rw [← this]
  · rw [htok]
    unfold tokenLookup
    rw [List.get?_eq_getElem?, List.getElem?_eq_getElem hltT,
      List.getD_eq_getElem?_getD, List.getElem?_eq_getElem hltT]
    rfl

/-- Witness for C9 at `toks = ["a", "b", "c"]`, `A = [[1, 3, 2], [5, 4, 6]]`,
`k = 2`, `r = 0`, `n = 0`. -/
theorem bottomk_aligned_witness :
    elemAt (bottomkIdxs [[1, 3, 2], [5, 4, 6]] 2) 0 0 0 < 3
    ∧ elemAt (bottomkVals [[1, 3, 2], [5, 4, 6]] 2) 0 0 0
        = ([[(1 : ℚ), 3, 2], [5, 4, 6]].getD 0 []).getD
            (elemAt (bottomkIdxs [[1, 3, 2], [5, 4, 6]] 2) 0 0 0) 0
    ∧ elemAt (bottomkTokens ["a", "b", "c"] [[1, 3, 2], [5, 4, 6]] 2) 0 0 none
        = tokenLookup ["a", "b", "c"]
            (elemAt (bottomkIdxs [[1, 3, 2], [5, 4, 6]] 2) 0 0 0)
    ∧ elemAt (bottomkTokens ["a", "b", "c"] [[1, 3, 2], [5, 4, 6]] 2) 0 0 none
        = some ((["a", "b", "c"] : List String).getD
            (elemAt (bottomkIdxs [[1, 3, 2], [5, 4, 6]] 2) 0 0 0) "") :=
  bottomk_aligned ["a", "b", "c"] [[1, 3, 2], [5, 4, 6]] 3 2 0 0
    (by decide) (by decide) (by decide) (by decide) (by decide) (by decide)

/-! ### C5: recomputation of the neuron range on a column-count change -/

/-- C5 counterexample: with a single sample, changing the column count to 2
does not make the neuron range `[0, 1]`; the `useEffect` body keeps it at
`[0]` whenever `numberOfSamples ≤ 1`, so the recomputation is not
independent of the number of samples. -/
theorem recomputedNeuronNumbers_counterexample :
    recomputedNeuronNumbers 1 2 ≠ List.range 2 := by
  decide

/-- C5 (amended): on a column-count change to `c`, the neuron range becomes
the first `c` neurons `[0, …, c-1]` when there is more than one sample,
and is reset to `[0]` when there is at most one sample. -/
theorem recomputedNeuronNumbers_spec (numberOfSamples colsToShow : ℕ) :
    (1 < numberOfSamples →
      recomputedNeuronNumbers numberOfSamples colsToShow = List.range colsToShow)
    ∧ (numberOfSamples ≤ 1 →
      recomputedNeuronNumbers numberOfSamples colsToShow = [0]) := by
  unfold recomputedNeuronNumbers
  constructor
  · intro h
    rw [if_pos h]
  · intro h
    rw [if_neg (by omega)]

/-- Witness for C5 (amended) at `numberOfSamples = 2`, `colsToShow = 3`. -/
theorem recomputedNeuronNumbers_spec_witness :
    recomputedNeuronNumbers 2 3 = List.range 3 :=
  (recomputedNeuronNumbers_spec 2 3).1 (by decide)

/-! ### C6: the k selector offers exactly 1..20; the algorithm has no
upper bound on k other than the token count -/

/-- C6: `NumberSelector` with `smallestNumber ≤ largestNumber` offers
exactly the consecutive integers `smallestNumber..largestNumber` in
ascending order; instantiated at the k selector's bounds it offers exactly
`1..20`; and the extraction itself imposes no bound on `k` other than the
token count: for any `k ≤ tokenCount` the per-row top-k result has
exactly `k` entries. -/
theorem numberSelector_options_spec (s l x : ℤ) (xs : List ℚ) (k : ℕ)
    (_hsl : s ≤ l) (hk : k ≤ xs.length) :
    (x ∈ numberSelectorOptions s l ↔ s ≤ x ∧ x ≤ l)
    ∧ (numberSelectorOptions s l).Sorted (· < ·)
    ∧ numberSelectorOptions 1 20
        = [1, 2, 3, 4, 5, 6, 7, 8, 9, 10, 11, 12, 13, 14, 15, 16, 17, 18, 19, 20]
    ∧ (rowTopk xs k).length = k := by
  refine ⟨?_, ?_, by decide, ?_⟩
  · unfold numberSelectorOptions
    constructor
    · intro hx
      rw [List.mem_map] at hx
      obtain ⟨i, hi, rfl⟩ := hx
      rw [List.mem_range] at hi
      rw [Int.ofNat_eq_natCast]
      omega
    · rintro ⟨h1, h2⟩
      rw [List.mem_map]
      refine ⟨(x - s).toNat, List.mem_range.mpr (by omega), ?_⟩
      show Int.ofNat (x - s).toNat + s = x
      rw [Int.ofNat_eq_natCast]
      omega
  · unfold numberSelectorOptions List.Sorted
    rw [List.pairwise_map]
    refine (List.pairwise_lt_range _).imp ?_
    intro a b h
    rw [Int.ofNat_eq_natCast, Int.ofNat_eq_natCast]
    omega
  · rw [length_rowTopk]
    exact Nat.min_eq_left hk

/-- Witness for C6 at `s = 1`, `l = 20`, `x = 5`, `xs = [1, 2, 3]`, `k = 2`. -/
theorem numberSelector_options_spec_witness :
    ((5 : ℤ) ∈ numberSelectorOptions 1 20 ↔ (1 : ℤ) ≤ 5 ∧ (5 : ℤ) ≤ 20)
    ∧ (numberSelectorOptions 1 20).Sorted (· < ·)
    ∧ numberSelectorOptions 1 20
        = [1, 2, 3, 4, 5, 6, 7, 8, 9, 10, 11, 12, 13, 14, 15, 16, 17, 18, 19, 20]
    ∧ (rowTopk [1, 2, 3] 2).length = 2 :=
  numberSelector_options_spec 1 20 5 [1, 2, 3] 2 (by decide) (by decide)

/-! ### C7: index-to-token resolution performs no bounds check -/

/-- C7: the token-resolution step reads `tokens[sample][i]` directly for
every index produced by the top-k step — for any matrix and any `k`,
without validating the index — and an out-of-range index yields
`undefined` (`none`) cell content rather than an error; an in-range index
yields the token. -/
theorem token_resolution_unchecked (toks : List String) (i : ℕ)
    (A : List (List ℚ)) (k r n : ℕ)
    (hr : r < (topkIdxs A k).length)
    (hn : n < ((topkIdxs A k).getD r []).length) :
    elemAt (topkTokens toks A k) r n none
        = tokenLookup toks (elemAt (topkIdxs A k) r n 0)
    ∧ (toks.length ≤ i → tokenLookup toks i = none)
    ∧ (i < toks.length → tokenLookup toks i = some (toks.getD i "")) := by
  refine ⟨?_, ?_, ?_⟩
  · unfold topkTokens
    exact elemAt_map_inner _ _ hr hn 0
  · intro h
    unfold tokenLookup
    exact List.get?_eq_none.mpr h
  · intro h
    unfold tokenLookup
    rw [List.get?_eq_getElem?, List.getElem?_eq_getElem h,
      List.getD_eq_getElem?_getD, List.getElem?_eq_getElem h]
    rfl

/-- Witness for C7 at `toks = ["a"]` and the out-of-range index `i = 5`
(the single-token list resolved against a two-token activation row). -/
theorem token_resolution_unchecked_witness :
    elemAt (topkTokens ["a"] [[1, 2]] 1) 0 0 none
        = tokenLookup ["a"] (elemAt (topkIdxs [[1, 2]] 1) 0 0 0)
    ∧ ((["a"] : List String).length ≤ 5 → tokenLookup ["a"] 5 = none)
    ∧ (5 < (["a"] : List String).length →
        tokenLookup ["a"] 5 = some ((["a"] : List String).getD 5 "")) :=
  token_resolution_unchecked ["a"] 5 [[1, 2]] 1 0 0 (by decide) (by decide)

/-! ### C8: the derived display matrices are a pure function of the inputs
and the selection state -/

/-- C8: the six derived display matrices are a deterministic pure function
of the inputs (`tokens`, `activations`) and the selection state
(`sampleNumber`, `layerNumber`, `neuronNumbers`, `k`): evaluating the
pipeline twice on identical inputs and identical selection state yields
identical results — the embedding takes no other arguments, so there is
no hidden or shared mutable state to depend on. -/
theorem deriveDisplay_deterministic
    (t₁ t₂ : List (List String)) (a₁ a₂ : List (List (List (List ℚ))))
    (s₁ s₂ l₁ l₂ : ℕ) (nn₁ nn₂ : List ℕ) (k₁ k₂ : ℕ)
    (ht : t₁ = t₂) (ha : a₁ = a₂) (hs : s₁ = s₂) (hl : l₁ = l₂)
    (hnn : nn₁ = nn₂) (hk : k₁ = k₂) :
    deriveDisplay t₁ a₁ s₁ l₁ nn₁ k₁ = deriveDisplay t₂ a₂ s₂ l₂ nn₂ k₂ := by
  subst ht ha hs hl hnn hk
  rfl

/-- Witness for C8 at a concrete input evaluated twice. -/
theorem deriveDisplay_deterministic_witness :
    deriveDisplay [["a", "b"]] [[[[1, 2], [3, 4]], [[5, 6], [7, 8]]]] 0 0 [0, 1] 1
      = deriveDisplay [["a", "b"]] [[[[1, 2], [3, 4]], [[5, 6], [7, 8]]]] 0 0 [0, 1] 1 :=
  deriveDisplay_deterministic _ _ _ _ _ _ _ _ _ _ _ _ rfl rfl rfl rfl rfl rfl

/-! ### C10: RangeSelector's ranges partition the integer interval -/

lemma rangeSelectorRangesAux_step (largest numVals i : ℤ)
    (hi : i ≤ largest) (hv : 1 ≤ numVals) :
    rangeSelectorRangesAux largest numVals i
      = (i, min (i + numVals - 1) largest)
          :: rangeSelectorRangesAux largest numVals (i + numVals) := by
  rw [rangeSelectorRangesAux]
  exact dif_pos ⟨hi, hv⟩

lemma rangeSelectorRangesAux_stop (largest numVals i : ℤ) (hi : largest < i) :
    rangeSelectorRangesAux largest numVals i = [] := by
  rw [rangeSelectorRangesAux]
  exact dif_neg (fun hcon => absurd hcon.1 (not_le.mpr hi))

lemma rangeSelectorRangesAux_spec (largest numVals i : ℤ)
    (hv : 1 ≤ numVals) (hi : i ≤ largest) :
    rangeSelectorRangesAux largest numVals i ≠ []
    ∧ ((rangeSelectorRangesAux largest numVals i).headD (0, 0)).1 = i
    ∧ ((rangeSelectorRangesAux largest numVals i).getLast?.getD (0, 0)).2 = largest
    ∧ List.Chain' (fun p q => q.1 = p.2 + 1) (rangeSelectorRangesAux largest numVals i)
    ∧ (∀ p ∈ rangeSelectorRangesAux largest numVals i,
        p.1 ≤ p.2 ∧ p.2 - p.1 + 1 ≤ numVals)
    ∧ (∀ j : ℕ, j + 1 < (rangeSelectorRangesAux largest numVals i).length →
        ((rangeSelectorRangesAux largest numVals i).getD j (0, 0)).2
          - ((rangeSelectorRangesAux largest numVals i).getD j (0, 0)).1 + 1
          = numVals) := by
  by_cases hnext : i + numVals ≤ largest
  · obtain ⟨ha, hb, hc, hd, he, hf⟩ :=
      rangeSelectorRangesAux_spec largest numVals (i + numVals) hv hnext
    have hmin : min (i + numVals - 1) largest = i + numVals - 1 :=
      min_eq_left (by omega)
    have hstep := rangeSelectorRangesAux_step largest numVals i hi hv
    rw [hmin] at hstep
    obtain ⟨q, t, hqt⟩ := List.exists_cons_of_ne_nil ha
    refine ⟨by rw [hstep]; exact List.cons_ne_nil _ _, by rw [hstep]; rfl, ?_, ?_, ?_, ?_⟩
    · rw [hstep, hqt, List.getLast?_cons_cons, ← hqt]
      exact hc
    · rw [hstep, hqt]
      rw [hqt] at hd
      refine List.chain'_cons.mpr ⟨?_, hd⟩
      have hq1 : q.1 = i + numVals := by
        rw [hqt] at hb
        exact hb
      omega
    · intro p hp
      rw [hstep] at hp
      rcases List.mem_cons.mp hp with hp | hp
      · rw [hp]
        constructor <;> [omega; omega]
      · exact he p hp
    · intro j hj
      rw [hstep] at hj ⊢
      cases j with
      | zero =>
        rw [List.getD_cons_zero]
        omega
      | succ j =>
        rw [List.getD_cons_succ]
        rw [List.length_cons] at hj
        exact hf j (by omega)
  · have hmin : min (i + numVals - 1) largest = largest :=
      min_eq_right (by omega)
    have hstep := rangeSelectorRangesAux_step largest numVals i hi hv
    rw [hmin, rangeSelectorRangesAux_stop largest numVals (i + numVals) (by omega)]
      at hstep
    refine ⟨by rw [hstep]; exact List.cons_ne_nil _ _, by rw [hstep]; rfl,
      by rw [hstep]; rfl, by rw [hstep]; exact List.chain'_singleton _, ?_, ?_⟩
    · intro p hp
      rw [hstep] at hp
      rw [List.mem_singleton.mp hp]
      constructor <;> [exact hi; omega]
    · intro j hj
      rw [hstep, List.length_cons, List.length_nil] at hj
      omega
termination_by (largest + 1 - i).toNat
decreasing_by omega

/-- C10: for every `smallest ≤ largest` and `numVals ≥ 1`, the option
ranges built by `RangeSelector` partition `[smallest, largest]` exactly:
the list is nonempty, starts at `smallest`, ends at `largest`, each range
starts right after its predecessor ends (so the ranges are consecutive,
disjoint, ascending, and jointly cover the interval), every range is
nonempty of size at most `numVals`, every range except possibly the last
has size exactly `numVals`; e.g. `(0, 4, 2)` gives `0-1`, `2-3`, `4`. -/
theorem rangeSelector_partition (smallest largest numVals : ℤ)
    (hsl : smallest ≤ largest) (hv : 1 ≤ numVals) :
    rangeSelectorRanges smallest largest numVals ≠ []
    ∧ ((rangeSelectorRanges smallest largest numVals).headD (0, 0)).1 = smallest
    ∧ ((rangeSelectorRanges smallest largest numVals).getLast?.getD (0, 0)).2 = largest
    ∧ List.Chain' (fun p q => q.1 = p.2 + 1)
        (rangeSelectorRanges smallest largest numVals)
    ∧ (∀ p ∈ rangeSelectorRanges smallest largest numVals,
        p.1 ≤ p.2 ∧ p.2 - p.1 + 1 ≤ numVals)
    ∧ (∀ j : ℕ, j + 1 < (rangeSelectorRanges smallest largest numVals).length →
        ((rangeSelectorRanges smallest largest numVals).getD j (0, 0)).2
          - ((rangeSelectorRanges smallest largest numVals).getD j (0, 0)).1 + 1
          = numVals)
    ∧ rangeSelectorRanges 0 4 2 = [(0, 1), (2, 3), (4, 4)] := by
  have hex : rangeSelectorRanges 0 4 2 = [(0, 1), (2, 3), (4, 4)] := by
    unfold rangeSelectorRanges
    rw [rangeSelectorRangesAux_step 4 2 0 (by omega) (by omega),
      rangeSelectorRangesAux_step 4 2 (0 + 2) (by omega) (by omega),
      rangeSelectorRangesAux_step 4 2 (0 + 2 + 2) (by omega) (by omega),
      rangeSelectorRangesAux_stop 4 2 (0 + 2 + 2 + 2) (by omega)]
    norm_num
  obtain ⟨ha, hb, hc, hd, he, hf⟩ :=
    rangeSelectorRangesAux_spec largest numVals smallest hv hsl
  exact ⟨ha, hb, hc, hd, he, hf, hex⟩

/-- Witness for C10 at `smallest = 0`, `largest = 4`, `numVals = 2`. -/
theorem rangeSelector_partition_witness :
    rangeSelectorRanges 0 4 2 ≠ []
    ∧ ((rangeSelectorRanges 0 4 2).headD (0, 0)).1 = 0
    ∧ ((rangeSelectorRanges 0 4 2).getLast?.getD (0, 0)).2 = 4
    ∧ List.Chain' (fun p q => q.1 = p.2 + 1) (rangeSelectorRanges 0 4 2)
    ∧ (∀ p ∈ rangeSelectorRanges 0 4 2, p.1 ≤ p.2 ∧ p.2 - p.1 + 1 ≤ 2)
    ∧ (∀ j : ℕ, j + 1 < (rangeSelectorRanges 0 4 2).length →
        ((rangeSelectorRanges 0 4 2).getD j (0, 0)).2
          - ((rangeSelectorRanges 0 4 2).getD j (0, 0)).1 + 1 = 2)
    ∧ rangeSelectorRanges 0 4 2 = [(0, 1), (2, 3), (4, 4)] :=
  rangeSelector_partition 0 4 2 (by decide) (by decide)

end CircuitsVis
